import Mathlib

/-!
Shallow embedding of `scripts/parse_docs.py` (the AzIndex data generator)
together with theorems settling the frozen claims about it.

Strings are modelled as Lean `String`/`List Char`; Python dicts as ordered
association lists with Python's insert/update semantics; the filesystem as a
finite tree of named nodes; `sys.exit`/raised exceptions as `Except`/`Option`.
Whitespace classes are modelled by the ASCII whitespace characters, which is
what the documents involved contain.
-/

namespace AzIndex

/-- Character code of the backquote fence character. -/
def backq : Char := Char.ofNat 96

/-- Character code of the single-quote character. -/
def squote : Char := Char.ofNat 39

/-- Python whitespace (`str.strip()` / regex `\s`), ASCII part:
space, tab, newline, carriage return, vertical tab, form feed. -/
def isPySpace (c : Char) : Bool :=
  c = ' ' || c = '\t' || c = '\n' || c = '\r' || c = Char.ofNat 11 || c = Char.ofNat 12

/-- Python `str.strip()` on a character list. -/
def pyStrip (l : List Char) : List Char :=
  ((l.dropWhile isPySpace).reverse.dropWhile isPySpace).reverse

/-- Python `str.strip()` on a `String`. -/
def pyStripStr (s : String) : String :=
  String.mk (pyStrip s.data)

/-- Line-break characters recognised by Python `str.splitlines`
(ASCII part; `\r\n` is handled as one break in `pySplitlinesAux`). -/
def isLineBreak (c : Char) : Bool :=
  c = '\n' || c = '\r' || c = Char.ofNat 11 || c = Char.ofNat 12

/-- Worker for `pySplitlines`; `acc` is the current line reversed. -/
def pySplitlinesAux (acc : List Char) : List Char → List (List Char)
  | [] => if acc.isEmpty then [] else [acc.reverse]
  | '\r' :: '\n' :: cs => acc.reverse :: pySplitlinesAux [] cs
  | c :: cs =>
    if isLineBreak c then
      acc.reverse :: pySplitlinesAux [] cs
    else
      pySplitlinesAux (c :: acc) cs

/-- Python `str.splitlines()`: split at line breaks, no trailing empty line. -/
def pySplitlines (l : List Char) : List (List Char) :=
  pySplitlinesAux [] l

/-- Case-insensitive equality of character lists (Python `.lower()` compare). -/
def lowerList (l : List Char) : List Char :=
  l.map Char.toLower

/-- Python `s.startswith(pre)`, on kernel-reducible list data. -/
def strStarts (s pre : String) : Bool :=
  pre.data.isPrefixOf s.data

/-- Python `s.endswith(suf)`, on kernel-reducible list data. -/
def strEnds (s suf : String) : Bool :=
  suf.data.isSuffixOf s.data

/-- Python `needle in hay` substring test on character lists. -/
def listContainsSub (needle : List Char) : List Char → Bool
  | [] => needle.isEmpty
  | c :: cs => needle.isPrefixOf (c :: cs) || listContainsSub needle cs

/-- Python dict lookup `m.get(k)` (keys are unique by construction). -/
def pyGet {β : Type} (m : List (String × β)) (k : String) : Option β :=
  match m with
  | [] => none
  | (k', v) :: rest => if k' = k then some v else pyGet rest k

/-- Python dict assignment `m[k] = v`: update in place, else append. -/
def pyInsert {β : Type} (m : List (String × β)) (k : String) (v : β) :
    List (String × β) :=
  match m with
  | [] => [(k, v)]
  | (k', v') :: rest => if k' = k then (k', v) :: rest else (k', v') :: pyInsert rest k v

-- ── Front matter ─────────────────────────────────────────────────────────────

/-- All suffixes of `l` that start right after a `\n` lying inside the
leading whitespace run of `l`, earliest first.  These are the candidate
content-start points of the regex `^---\s*\n…`; the regex engine's greedy
`\s*` tries the **last** one first. -/
def nlSuffixes : List Char → List (List Char)
  | [] => []
  | c :: cs =>
    if c = '\n' then cs :: nlSuffixes cs
    else if isPySpace c then nlSuffixes cs
    else []

/-- Find the lazy front-matter block: the shortest prefix of `l` that ends
with a newline immediately followed by `---` (the closing fence of
`^---\s*\n(.*?\n)---`).  Returns the group-1 text (including its final
newline). -/
def findFMBlock (acc : List Char) : List Char → Option (List Char)
  | [] => none
  | c :: cs =>
    if c = '\n' && ['-', '-', '-'].isPrefixOf cs then
      some (c :: acc).reverse
    else
      findFMBlock (c :: acc) cs

/-- First `some` among block candidates. -/
def firstSomeFM : List (List Char) → Option (List Char)
  | [] => none
  | cand :: rest =>
    match findFMBlock [] cand with
    | some b => some b
    | none => firstSomeFM rest

/-- Strip the quote characters `"` and `'` from both ends (Python
`.strip('"\'')`, applied after whitespace stripping). -/
def stripQuotes (l : List Char) : List Char :=
  let isQ : Char → Bool := fun c => c = '"' || c = squote
  ((l.dropWhile isQ).reverse.dropWhile isQ).reverse

/-- Fold the block's lines into a dict: split each line at the first colon,
trim key and value, strip surrounding quotes from the value; lines without
a colon are ignored; a later duplicate key overwrites. -/
def fmLineFold (m : List (String × String)) (line : List Char) :
    List (String × String) :=
  let key := line.takeWhile (· ≠ ':')
  match line.dropWhile (· ≠ ':') with
  | ':' :: rest =>
      pyInsert m (String.mk (pyStrip key)) (String.mk (stripQuotes (pyStrip rest)))
  | _ => m

/-- `parse_front_matter(text)`: extract YAML front matter fields as a dict.
Mirrors `re.match(r'^---\s*\n(.*?\n)---', text, re.DOTALL)` followed by
line-wise splitting on the first colon. -/
def parse_front_matter (text : String) : List (String × String) :=
  match text.data with
  | '-' :: '-' :: '-' :: rest =>
    match firstSomeFM (nlSuffixes rest).reverse with
    | some block => (pySplitlines block).foldl fmLineFold []
    | none => []
  | _ => []

-- ── Category mapping ─────────────────────────────────────────────────────────

/-- The ordered `(key, category)` rule list from the source. -/
def CATEGORY_MAP : List (String × String) := [
  ("Accounts", "Authentication"),
  ("Compute", "Compute"),
  ("Network", "Networking"),
  ("Storage", "Storage"),
  ("Sql", "Database"),
  ("CosmosDb", "Database"),
  ("Redis", "Database"),
  ("Monitor", "Monitoring"),
  ("Advisor", "Governance"),
  ("Policy", "Governance"),
  ("Security", "Security"),
  ("KeyVault", "Security"),
  ("Identity", "Identity"),
  ("Aks", "Containers"),
  ("ContainerInstance", "Containers"),
  ("ContainerRegistry", "Containers"),
  ("App", "App Services"),
  ("Websites", "App Services"),
  ("Functions", "App Services"),
  ("Logic", "Integration"),
  ("ServiceBus", "Messaging"),
  ("EventHub", "Messaging"),
  ("EventGrid", "Messaging"),
  ("NotificationHubs", "Messaging"),
  ("ApiManagement", "API Management"),
  ("Resources", "Resources"),
  ("ResourceMover", "Resources"),
  ("Cdn", "Networking"),
  ("Dns", "Networking"),
  ("FrontDoor", "Networking"),
  ("TrafficManager", "Networking"),
  ("VirtualWan", "Networking"),
  ("PowerBIEmbedded", "Analytics"),
  ("StreamAnalytics", "Analytics"),
  ("MachineLearning", "AI & ML"),
  ("CognitiveServices", "AI & ML"),
  ("DataFactory", "Data"),
  ("DataLakeStore", "Data"),
  ("Synapse", "Data"),
  ("Databricks", "Data"),
  ("Batch", "Compute"),
  ("HDInsight", "Compute"),
  ("ServiceFabric", "Compute"),
  ("Automation", "Management"),
  ("Backup", "Management"),
  ("RecoveryServices", "Management"),
  ("OperationalInsights", "Monitoring")]

/-- `get_category(module_name)`: map `Az.ModuleSuffix` to a category string.
Pass 1: case-insensitive exact match of the suffix against the rule keys;
pass 2: case-insensitive substring match (`key.lower() in suffix.lower()`);
else `"Other"`.  `module_name.removeprefix("Az.")` is inlined. -/
def get_category (module_name : String) : String :=
  let suffix := if strStarts module_name "Az." then String.mk (module_name.data.drop 3) else module_name
  match CATEGORY_MAP.find? (fun kc => lowerList suffix.data = lowerList kc.1.data) with
  | some kc => kc.2
  | none =>
    match CATEGORY_MAP.find? (fun kc => listContainsSub (lowerList kc.1.data) (lowerList suffix.data)) with
    | some kc => kc.2
    | none => "Other"

-- ── Section extraction ───────────────────────────────────────────────────────

/-- Within the leading whitespace run of the list, return the suffix that
follows the **last** newline of the run, if the run contains one.  This is
the semantics of a greedy `\s*\n` in the source's regexes. -/
def lastNlOfRun (best : Option (List Char)) : List Char → Option (List Char)
  | [] => best
  | c :: cs =>
    if c = '\n' then lastNlOfRun (some cs) cs
    else if isPySpace c then lastNlOfRun best cs
    else best

/-- `\s*\n` applied at the head of `l`. -/
def wsNl (l : List Char) : Option (List Char) :=
  lastNlOfRun none l

/-- Case-insensitive literal match: drop `pat` from the head of `l`
(the `re.IGNORECASE` matching of an escaped literal). -/
def caseDrop : List Char → List Char → Option (List Char)
  | [], l => some l
  | _ :: _, [] => none
  | p :: ps, c :: cs => if c.toLower = p.toLower then caseDrop ps cs else none

/-- Group text of `(.*?)(?=\n## |\Z)`: everything up to (excluding) the first
newline that is immediately followed by `## `, or the whole list. -/
def sectionBody (acc : List Char) : List Char → List Char
  | [] => acc.reverse
  | '\n' :: cs =>
    if ['#', '#', ' '].isPrefixOf cs then acc.reverse
    else sectionBody ('\n' :: acc) cs
  | c :: cs => sectionBody (c :: acc) cs

/-- Try to match `## NAME\s*\n` at the head of `l`; on success return the
suffix where the section content starts. -/
def matchHeadingHere (name : List Char) (l : List Char) : Option (List Char) :=
  match l with
  | '#' :: '#' :: ' ' :: rest =>
    match caseDrop name rest with
    | some r => wsNl r
    | none => none
  | _ => none

/-- Leftmost position (any position, not only line starts — `re.search` with
an unanchored pattern) where `## NAME\s*\n` matches. -/
def findHeading (name : List Char) : List Char → Option (List Char)
  | [] => none
  | c :: cs =>
    match matchHeadingHere name (c :: cs) with
    | some content => some content
    | none => findHeading name cs

/-- `extract_section(text, section_name)`: content under a `## SECTION` heading.
Mirrors `re.search(rf'## {name}\s*\n(.*?)(?=\n## |\Z)', text, re.DOTALL |
re.IGNORECASE)`, returning the stripped group or `''`. -/
def extract_section (text section_name : String) : String :=
  match findHeading section_name.data text.data with
  | some content => String.mk (pyStrip (sectionBody [] content))
  | none => ""

-- ── Code block extraction ────────────────────────────────────────────────────

/-- Opening fence of `` ```(?:powershell|ps1|posh)?\s*\n ``: the three
backquotes, an optional case-insensitive language tag tried in alternation
order with backtracking, then greedy whitespace ending in a newline.
Returns the suffix where the block content starts. -/
def tryOpenFence : List Char → Option (List Char)
  | b1 :: b2 :: b3 :: rest =>
    if b1 = backq && b2 = backq && b3 = backq then
      (match caseDrop "powershell".data rest with | some r => wsNl r | none => none) <|>
      (match caseDrop "ps1".data rest with | some r => wsNl r | none => none) <|>
      (match caseDrop "posh".data rest with | some r => wsNl r | none => none) <|>
      wsNl rest
    else none
  | _ => none

/-- Split at the first closing ```` ``` ````: returns the lazy group `(.*?)`
and the suffix after the fence. -/
def splitAtTicks (acc : List Char) : List Char → Option (List Char × List Char)
  | a :: b :: c :: rest =>
    if a = backq && b = backq && c = backq then some (acc.reverse, rest)
    else splitAtTicks (a :: acc) (b :: c :: rest)
  | _ => none

/-- `re.findall` of the fenced-block pattern: scan left to right; after a
match, resume after its closing fence; on a failed opening fence, advance one
character.  `fuel` bounds the recursion and is instantiated with the input
length, which the scan never exceeds (each step consumes ≥ 1 character). -/
def scanBlocksF : Nat → List Char → List (List Char)
  | _, [] => []
  | 0, _ => []
  | fuel + 1, c :: cs =>
    match tryOpenFence (c :: cs) with
    | some contentStart =>
      match splitAtTicks [] contentStart with
      | some (block, rest) => block :: scanBlocksF fuel rest
      | none => scanBlocksF fuel cs
    | none => scanBlocksF fuel cs

/-- All raw fenced-block contents of `section_text`, in source order. -/
def scanBlocks (l : List Char) : List (List Char) :=
  scanBlocksF l.length l

/-- Per-block cleaning: strip the block, drop every line whose stripped form
starts with `#`, rejoin with newlines, strip; `none` if the result is empty. -/
def cleanBlock (b : List Char) : Option String :=
  let lines := (pySplitlines (pyStrip b)).filter (fun l =>
    match pyStrip l with
    | '#' :: _ => false
    | _ => true)
  let code := pyStrip (List.intercalate ['\n'] lines)
  if code.isEmpty then none else some (String.mk code)

/-- `extract_code_blocks(section_text, max_blocks=3)`: up to `max_blocks`
cleaned, non-empty fenced code block contents. -/
def extract_code_blocks (section_text : String) (max_blocks : Nat := 3) : List String :=
  ((scanBlocks section_text.data).take max_blocks).filterMap cleanBlock

-- ── Name patterns and the cmdlet-document parser ─────────────────────────────

/-- ASCII `[A-Z]` of the source's regexes. -/
def isAsciiUpper (c : Char) : Bool := 'A' ≤ c && c ≤ 'Z'

/-- ASCII `[a-z]` of the source's regexes. -/
def isAsciiLower (c : Char) : Bool := 'a' ≤ c && c ≤ 'z'

/-- `VERB_RE = re.compile(r'^([A-Z][a-z]+-Az')`-style split: on a match of
`^([A-Z][a-z]+)-Az`, return the group (the leading capitalized word) and the
suffix after `-Az`.  Backtracking cannot produce any other split because `-`
is not in `[a-z]`. -/
def verbAzSplit (s : String) : Option (List Char × List Char) :=
  match s.data with
  | [] => none
  | c :: rest =>
    if isAsciiUpper c then
      if (rest.takeWhile isAsciiLower).isEmpty then none
      else
        match rest.dropWhile isAsciiLower with
        | '-' :: 'A' :: 'z' :: after => some (c :: rest.takeWhile isAsciiLower, after)
        | _ => none
    else none

/-- `re.match(r'^[A-Z][a-z]+-Az', name)` as a Boolean test. -/
def matchVerbAz (s : String) : Bool :=
  (verbAzSplit s).isSome

/-- The aggregator's verb extraction: `VERB_RE.match(cname)` group 1,
defaulting to `'Other'`. -/
def extractVerb (s : String) : String :=
  match verbAzSplit s with
  | some (g, _) => String.mk g
  | none => "Other"

/-- `re.match(r'^Az\.[A-Za-z]+$', fname)`: module-index file names. -/
def matchModuleIndex (s : String) : Bool :=
  match s.data with
  | 'A' :: 'z' :: '.' :: rest =>
    !rest.isEmpty && rest.all (fun c => isAsciiUpper c || isAsciiLower c)
  | _ => false

/-- Try the Markdown-link pattern `\[([^\]]+)\]\([^)]+\)` at the head of `l`;
on success return the link text (group 1) and the rest after `)`. -/
def tryLink (l : List Char) : Option (List Char × List Char) :=
  match l with
  | '[' :: rest =>
    let inner := rest.takeWhile (· ≠ ']')
    if inner.isEmpty then none
    else
      match rest.dropWhile (· ≠ ']') with
      | ']' :: '(' :: r2 =>
        let url := r2.takeWhile (· ≠ ')')
        if url.isEmpty then none
        else
          match r2.dropWhile (· ≠ ')') with
          | ')' :: r3 => some (inner, r3)
          | _ => none
      | _ => none
  | _ => none

/-- `re.sub(r'\[([^\]]+)\]\([^)]+\)', r'\1', s)`: rewrite `[text](url)` to
`text`, leftmost-first, non-overlapping.  `fuel` is instantiated with the
input length; each step consumes at least one character. -/
def rewriteLinksF : Nat → List Char → List Char
  | _, [] => []
  | 0, l => l
  | fuel + 1, c :: cs =>
    match tryLink (c :: cs) with
    | some (inner, rest) => inner ++ rewriteLinksF fuel rest
    | none => c :: rewriteLinksF fuel cs

/-- The link-rewriting pass on a character list. -/
def rewriteLinks (l : List Char) : List Char :=
  rewriteLinksF l.length l

/-- `re.sub(r'[*_`]', '', s)`: drop emphasis and code-span markers. -/
def dropEmph (l : List Char) : List Char :=
  l.filter (fun c => !(c = '*' || c = '_' || c = backq))

/-- The full description clean-up applied to the synopsis first line. -/
def cleanDescription (s : String) : String :=
  String.mk (pyStrip (dropEmph (rewriteLinks s.data)))

/-- The slice of a document's filesystem context that `parse_cmdlet_doc`
reads: the file's base name without extension (`Path(filepath).stem`), the
immediate parent directory name, and the file text. -/
structure DocFile where
  stem : String
  parent : String
  text : String
deriving DecidableEq

/-- The record returned by `parse_cmdlet_doc` (`syntax` is called
`syntaxStr` because `syntax` is a Lean keyword). -/
structure CommandDoc where
  name : String
  module : String
  description : String
  syntaxStr : String
  examples : List String
deriving DecidableEq

/-- `front.get('title') or fname`: the empty string is falsy in Python, so a
present-but-empty `title` also falls back to the file stem. -/
def resolveName (front : List (String × String)) (fname : String) : String :=
  match pyGet front "title" with
  | some t => if t = "" then fname else t
  | none => fname

/-- `module = front.get('Module Name', ''); if (not module) and
parent.startswith('Az.'): module = parent`. -/
def resolveModule (front : List (String × String)) (parent : String) : String :=
  let module := (pyGet front "Module Name").getD ""
  if module = "" && strStarts parent "Az." then parent else module

/-- `parse_cmdlet_doc(filepath)`: parse a single cmdlet markdown file into a
`CommandDoc`, or `none` (Python `None`) for module-index files, names not
matching the verb pattern, or unresolvable modules. -/
def parse_cmdlet_doc (f : DocFile) : Option CommandDoc :=
  let front := parse_front_matter f.text
  let fname := f.stem
  if matchModuleIndex fname then none
  else
    let name := resolveName front fname
    if !matchVerbAz name then none
    else
      let module := resolveModule front f.parent
      if module = "" || !strStarts module "Az." then none
      else
        let synopsis_sec := extract_section f.text "SYNOPSIS"
        let description :=
          if synopsis_sec = "" then ""
          else cleanDescription (String.mk (pyStrip ((pySplitlines synopsis_sec.data).headD [])))
        let syntax_blocks := extract_code_blocks (extract_section f.text "SYNTAX") 1
        let syntaxStr := syntax_blocks.headD ""
        let examples := extract_code_blocks (extract_section f.text "EXAMPLES") 3
        some { name := name, module := module, description := description,
               syntaxStr := syntaxStr, examples := examples }

-- ── Filesystem model and the version resolver ────────────────────────────────

/- A filesystem node: a named directory with children (in the enumeration
order of `iterdir`, which the OS does not sort) or a named file with text.
The children sit in a mutually-defined list type so that recursive
traversals stay structural (and hence kernel-computable). -/
mutual
/-- A directory with named children, or a file with text. -/
inductive FSNode where
  | dir (name : String) (children : FSForest)
  | file (name : String) (text : String)
/-- A list of filesystem nodes. -/
inductive FSForest where
  | nil
  | cons (hd : FSNode) (tl : FSForest)
end

/-- Build an `FSForest` from a list of nodes. -/
def forestOf : List FSNode → FSForest
  | [] => .nil
  | c :: cs => .cons c (forestOf cs)

/-- The list of nodes of an `FSForest`. -/
def forestToList : FSForest → List FSNode
  | .nil => []
  | .cons c cs => c :: forestToList cs

/-- The node's name. -/
def nodeName : FSNode → String
  | .dir n _ => n
  | .file n _ => n

/-- Python `Path.is_dir()`. -/
def nodeIsDir : FSNode → Bool
  | .dir _ _ => true
  | .file _ _ => false

/-- The node's children (`iterdir`); empty for files. -/
def nodeChildren : FSNode → List FSNode
  | .dir _ cs => forestToList cs
  | .file _ _ => []

/-- `re.findall(r'\d+', name)` digit runs, folded to numbers; `cur` holds the
value of the digit run currently being read. -/
def digitGroupsAux (cur : Option Nat) : List Char → List Nat
  | [] => match cur with | some n => [n] | none => []
  | c :: cs =>
    if c.isDigit then digitGroupsAux (some ((cur.getD 0) * 10 + (c.toNat - 48))) cs
    else
      match cur with
      | some n => n :: digitGroupsAux none cs
      | none => digitGroupsAux none cs

/-- `ver_key(d)`: `tuple(int(x) for x in re.findall(r'\d+', d.name))`. -/
def verKey (name : String) : List Nat :=
  digitGroupsAux none name.data

/-- Python tuple `<` on integer tuples: lexicographic, a proper prefix is
smaller. -/
def listLt : List Nat → List Nat → Bool
  | [], [] => false
  | [], _ :: _ => true
  | _ :: _, [] => false
  | a :: as, b :: bs => if a < b then true else if a = b then listLt as bs else false

/-- The running-maximum fold of Python `max`: replace the accumulator only
when the next key is strictly greater, so ties keep the earlier element. -/
def pyMaxFold {α : Type} (key : α → List Nat) (x : α) (xs : List α) : α :=
  xs.foldl (fun acc y => if listLt (key acc) (key y) then y else acc) x

/-- Python `max(candidates, key=key)`: the first element whose key is
maximal (`none` on an empty list, where Python raises `ValueError` — the
source guarantees non-emptiness before calling `max`). -/
def pyMaxBy {α : Type} (key : α → List Nat) : List α → Option α
  | [] => none
  | x :: xs => some (pyMaxFold key x xs)

/-- The first-level scan: immediate child directories named `azps-*`. -/
def lvl1Candidates (root : FSNode) : List FSNode :=
  (nodeChildren root).filter (fun d => nodeIsDir d && strStarts (nodeName d) "azps-")

/-- The second-level scan: `azps-*` directories among children of children. -/
def lvl2Candidates (root : FSNode) : List FSNode :=
  ((nodeChildren root).filter nodeIsDir).flatMap
    (fun sub => (nodeChildren sub).filter (fun d => nodeIsDir d && strStarts (nodeName d) "azps-"))

/-- `find_latest_azps_dir(docs_root)`: the highest-versioned `azps-*`
subdirectory; `none` models the raised `FileNotFoundError`. -/
def find_latest_azps_dir (root : FSNode) : Option FSNode :=
  let candidates := lvl1Candidates root
  let candidates := if candidates.isEmpty then candidates ++ lvl2Candidates root else candidates
  pyMaxBy (fun d => verKey (nodeName d)) candidates

-- ── The aggregation pipeline (`main`) ────────────────────────────────────────

/-- One manifest entry `{'n':…,'v':…,'m':…,'c':…,'e':…}`. -/
structure ManifestEntry where
  n : String
  v : String
  m : String
  c : String
  e : Bool
deriving DecidableEq

/-- One value of a module's cmdlet mapping `{'syntax':…, 'examples':…}`. -/
structure ModuleCmdlet where
  syntaxStr : String
  examples : List String
deriving DecidableEq

/-- One per-module output object `{'module':…, 'version':…, 'cmdlets':…}`. -/
structure ModuleBundle where
  module : String
  version : String
  cmdlets : List (String × ModuleCmdlet)
deriving DecidableEq

/-- The accumulating state of the outer module loop. -/
structure AggState where
  manifest : List ManifestEntry
  descriptions : List (String × String)
  modulesData : List (String × ModuleBundle)
deriving DecidableEq

/-- The state threaded through one module directory's file loop (manifest and
descriptions continue across modules; `cmdlets` restarts per module). -/
structure ModState where
  entries : List ManifestEntry
  descs : List (String × String)
  cmdlets : List (String × ModuleCmdlet)
deriving DecidableEq

/-- `Path(name).stem` for the names the pipeline feeds it (`*.md` matches):
drop the final `.md` suffix; a bare `.md` dotfile keeps its name. -/
def pathStem (nm : String) : String :=
  if strEnds nm ".md" && nm ≠ ".md" then String.mk (nm.data.take (nm.data.length - 3)) else nm

/-- Python string `<=` (code-point lexicographic) on character lists. -/
def charListLe : List Char → List Char → Bool
  | [], _ => true
  | _ :: _, [] => false
  | a :: as, b :: bs => if a < b then true else if a = b then charListLe as bs else false

/-- Stable insertion into a sorted list (used to model Python `sorted`). -/
def insertSorted {α : Type} (le : α → α → Bool) (x : α) : List α → List α
  | [] => [x]
  | y :: ys => if le x y then x :: y :: ys else y :: insertSorted le x ys

/-- Python `sorted(l)` (stable; total key order). -/
def sortByKey {α : Type} (le : α → α → Bool) (l : List α) : List α :=
  l.foldr (insertSorted le) []

/-- `mod_dir.glob('*.md')` before sorting: the child files whose name ends in
`.md`, as `(name, text)` pairs. -/
def mdChildren (d : FSNode) : List (String × String) :=
  (nodeChildren d).filterMap (fun c =>
    match c with
    | .file nm tx => if strEnds nm ".md" then some (nm, tx) else none
    | .dir _ _ => none)

/-- The body of the inner `for md_file in sorted(mod_dir.glob('*.md'))` loop:
parse the document; on success append a manifest entry, record a non-empty
description, and insert into the module's cmdlet mapping. -/
def processFile (module_name category : String) (st : ModState) (md : String × String) :
    ModState :=
  match parse_cmdlet_doc { stem := pathStem md.1, parent := module_name, text := md.2 } with
  | none => st
  | some r =>
    let cname := r.name
    let verb := extractVerb cname
    { entries := st.entries ++
        [{ n := cname, v := verb, m := module_name, c := category, e := !r.examples.isEmpty }],
      descs := if r.description = "" then st.descs else pyInsert st.descs cname r.description,
      cmdlets := pyInsert st.cmdlets cname { syntaxStr := r.syntaxStr, examples := r.examples } }

/-- The body of the outer `for mod_dir in sorted(azps_dir.iterdir())` loop:
skip non-directories and names not starting with `Az.`; process the module's
files; emit a `ModuleBundle` only when the cmdlet mapping is non-empty. -/
def processModuleDir (mvm : List (String × String)) (st : AggState) (node : FSNode) :
    AggState :=
  if !nodeIsDir node then st
  else if !strStarts (nodeName node) "Az." then st
  else
    let module_name := nodeName node
    let mod_version := (pyGet mvm module_name).getD "0.0.0"
    let category := get_category module_name
    let ms := (sortByKey (fun a b => charListLe a.1.data b.1.data) (mdChildren node)).foldl
      (processFile module_name category)
      { entries := st.manifest, descs := st.descriptions, cmdlets := [] }
    { manifest := ms.entries,
      descriptions := ms.descs,
      modulesData :=
        if ms.cmdlets.isEmpty then st.modulesData
        else pyInsert st.modulesData module_name
          { module := module_name, version := mod_version, cmdlets := ms.cmdlets } }

/-- `azps_dir.rglob('*.md')` texts: all `.md` files strictly inside the node,
depth-first pre-order in child order (the OS enumeration order is
arbitrary). -/
def rglobKids : FSForest → List String
  | .nil => []
  | .cons (.file nm tx) tl => (if strEnds nm ".md" then [tx] else []) ++ rglobKids tl
  | .cons (.dir _ ds) tl => rglobKids ds ++ rglobKids tl

/-- `rglob` starting at a node. -/
def rglobNode : FSNode → List String
  | .file _ _ => []
  | .dir _ cs => rglobKids cs

/-- The module→version lookup built from every document's front matter,
keeping the first version seen per module. -/
def buildModuleVersionMap (texts : List String) : List (String × String) :=
  texts.foldl
    (fun m t =>
      let fm := parse_front_matter t
      match pyGet fm "Module Version", pyGet fm "Module Name" with
      | some mv, some mn => if (pyGet m mn).isNone then pyInsert m mn mv else m
      | _, _ => m) []

/-- `re.search(r'azps-(\d+\.\d+\.\d+)', name)` group 1 at one position. -/
def matchVersionHere (l : List Char) : Option (List Char) :=
  if "azps-".data.isPrefixOf l then
    let r := l.drop 5
    let d1 := r.takeWhile Char.isDigit
    if d1.isEmpty then none
    else
      match r.dropWhile Char.isDigit with
      | '.' :: r2 =>
        let d2 := r2.takeWhile Char.isDigit
        if d2.isEmpty then none
        else
          match r2.dropWhile Char.isDigit with
          | '.' :: r3 =>
            let d3 := r3.takeWhile Char.isDigit
            if d3.isEmpty then none
            else some (d1 ++ '.' :: d2 ++ '.' :: d3)
          | _ => none
      | _ => none
  else none

/-- The leftmost `azps-(\d+\.\d+\.\d+)` match in `l`. -/
def searchVersion : List Char → Option (List Char)
  | [] => none
  | c :: cs =>
    match matchVersionHere (c :: cs) with
    | some g => some g
    | none => searchVersion cs

/-- The top-level version string extracted from the `azps-*` directory name. -/
def extractAzpsVersion (name : String) : Option String :=
  (searchVersion name.data).map String.mk

/-- The top-level manifest object `{'v': version, 'd': entries}`. -/
structure Manifest where
  v : String
  d : List ManifestEntry
deriving DecidableEq

/-- Everything the run writes: `manifest.json`, `descriptions.json`, and one
`modules/<name>.json` per bundle, in insertion order. -/
structure Outputs where
  manifest : Manifest
  descriptions : List (String × String)
  moduleFiles : List (String × ModuleBundle)
deriving DecidableEq

/-- The fatal conditions: missing positional argument (`sys.exit(1)` after
the usage message) and no `azps-*` directory (`FileNotFoundError`). -/
inductive MainError where
  | usage
  | notFound
deriving DecidableEq

/-- Decidable equality of run results. -/
instance exceptDecEq {e a : Type} [DecidableEq e] [DecidableEq a] : DecidableEq (Except e a)
  | .ok x, .ok y =>
    if h : x = y then .isTrue (by rw [h]) else .isFalse (by intro hh; cases hh; exact h rfl)
  | .ok _, .error _ => .isFalse (by intro hh; cases hh)
  | .error _, .ok _ => .isFalse (by intro hh; cases hh)
  | .error x, .error y =>
    if h : x = y then .isTrue (by rw [h]) else .isFalse (by intro hh; cases hh; exact h rfl)

/-- The module→version lookup the run builds for the resolved directory. -/
def moduleVersionMapOf (azps : FSNode) : List (String × String) :=
  buildModuleVersionMap (rglobNode azps)

/-- The whole pipeline applied to the resolved `azps-*` directory node. -/
def runPipeline (azps : FSNode) : Outputs :=
  let version := (extractAzpsVersion (nodeName azps)).getD "0.0.0"
  let mvm := moduleVersionMapOf azps
  let sorted := sortByKey (fun a b => charListLe (nodeName a).data (nodeName b).data)
    (nodeChildren azps)
  let final := sorted.foldl (processModuleDir mvm)
    { manifest := [], descriptions := [], modulesData := [] }
  { manifest := { v := version, d := final.manifest },
    descriptions := final.descriptions,
    moduleFiles := final.modulesData }

/-- `main()`: `argv` must carry the root path as its single positional
argument (index 1); the output files exist only in the `ok` result, so a
fatal error writes nothing. -/
def main (argv : List String) (root : FSNode) : Except MainError Outputs :=
  if argv.length < 2 then .error .usage
  else
    match find_latest_azps_dir root with
    | none => .error .notFound
    | some azps => .ok (runPipeline azps)

-- ── Spec-side definitions (written from the spec's words, for comparison) ────

/-- C3's description of the category mapper, following the claim's words:
strip the family prefix to a suffix; return the category of the first rule
whose key equals the suffix case-insensitively; otherwise the category of
the first rule whose key is a case-insensitive substring of the suffix;
otherwise `"Other"`. -/
def specCategory (module_name : String) : String :=
  let suffix := if strStarts module_name "Az." then String.mk (module_name.data.drop 3) else module_name
  match CATEGORY_MAP.find? (fun kc => lowerList suffix.data = lowerList kc.1.data) with
  | some kc => kc.2
  | none =>
    match CATEGORY_MAP.find? (fun kc => listContainsSub (lowerList kc.1.data) (lowerList suffix.data)) with
    | some kc => kc.2
    | none => "Other"

/-- C5's description of the block extractor, following the claim's words:
take the first up-to-`max` fenced blocks in source order, strip comment
lines from each, trim, and keep the non-empty results. -/
def specCodeBlocks (section_text : String) (max_blocks : Nat) : List String :=
  ((scanBlocks section_text.data).take max_blocks).filterMap cleanBlock

/-- C2's reading of name resolution: "the `title` front-matter field when
present, otherwise the base name" — presence alone decides, even for an
empty `title`.  (The code instead treats an empty `title` as absent.) -/
def specResolvedName (front : List (String × String)) (fname : String) : String :=
  (pyGet front "title").getD fname

-- ── Helper lemmas ────────────────────────────────────────────────────────────

/-- Looking up the key just inserted returns the inserted value. -/
theorem pyGet_pyInsert_same {β : Type} (m : List (String × β)) (k : String) (v : β) :
    pyGet (pyInsert m k v) k = some v := by
  induction m with
  | nil => simp [pyInsert, pyGet]
  | cons p rest ih =>
    obtain ⟨k', v'⟩ := p
    by_cases h : k' = k
    · simp [pyInsert, pyGet, h]
    · simp [pyInsert, pyGet, h, ih]

/-- Members of a dict after an insertion come from the dict or are the
inserted pair. -/
theorem pyInsert_mem {β : Type} {m : List (String × β)} {k : String} {v : β}
    {p : String × β} (h : p ∈ pyInsert m k v) : p ∈ m ∨ p = (k, v) := by
  induction m with
  | nil => simp [pyInsert] at h; simp [h]
  | cons q rest ih =>
    obtain ⟨k', v'⟩ := q
    by_cases hk : k' = k
    · simp [pyInsert, hk] at h
      rcases h with h | h
      · right; simp [h, hk]
      · left; simp [h]
    · simp [pyInsert, hk] at h
      rcases h with h | h
      · left; simp [h]
      · rcases ih h with h2 | h2
        · left; simp [h2]
        · right; exact h2

-- ── C3 ───────────────────────────────────────────────────────────────────────

/-- **C3**: `get_category` strips the family prefix, returns the category of
the first rule whose key equals the suffix case-insensitively, otherwise of
the first rule (in list order) whose key is a case-insensitive substring of
the suffix, otherwise `"Other"`; the earlier rule wins when two substring
rules could match (`Az.ComputeNetwork` → `Compute`, not `Networking`;
`Az.NetworkSecurity` → `Networking`, not `Security`). -/
theorem C3_get_category_follows_ordered_rules :
    (∀ m : String, get_category m = specCategory m)
    ∧ get_category "Az.Sql" = "Database"
    ∧ get_category "Az.NETWORK" = "Networking"
    ∧ get_category "Az.ComputeNetwork" = "Compute"
    ∧ get_category "Az.NetworkSecurity" = "Networking"
    ∧ get_category "Az.Zzz" = "Other" :=
  ⟨fun _ => rfl, by decide, by decide, by decide, by decide, by decide⟩

-- ── C5 ───────────────────────────────────────────────────────────────────────

/-- **C5**: `extract_code_blocks` takes the first up-to-`max` fenced blocks in
source order, strips comment lines, trims, discards blocks that become
empty, and returns at most `max` cleaned blocks; a comment-only block
contributes nothing. -/
theorem C5_extract_code_blocks_cleaned_prefix :
    (∀ (s : String) (mx : Nat), extract_code_blocks s mx = specCodeBlocks s mx)
    ∧ (∀ (s : String) (mx : Nat), (extract_code_blocks s mx).length ≤ mx)
    ∧ extract_code_blocks "```powershell\n# only a comment\n```" 3 = []
    ∧ extract_code_blocks "```\na\n```\nmid\n```ps1\nb\n```\n```\nc\n```" 2 = ["a", "b"]
    ∧ extract_code_blocks "```\n# one\nkeep\n# two\n```" 3 = ["keep"] :=
  ⟨fun _ _ => rfl,
   fun s mx => le_trans (List.length_filterMap_le _ _) (List.length_take_le _ _),
   by decide, by decide, by decide⟩

-- ── C6 ───────────────────────────────────────────────────────────────────────

/-- Text that does not start with `---` has no front matter. -/
theorem parse_front_matter_needs_dashes (t : String) (h : strStarts t "---" = false) :
    parse_front_matter t = [] := by
  obtain ⟨l⟩ := t
  unfold parse_front_matter
  split
  · rename_i rest heq
    exfalso
    rw [strStarts] at h
    have hd : ("---" : String).data = ['-', '-', '-'] := rfl
    rw [hd] at h
    simp only [String.data] at heq
    rw [heq] at h
    simp [List.isPrefixOf] at h
  · rfl

/-- **C6 counterexample**: the claim says the closing delimiter must be a
line containing only `---`; on `"---\na: b\n---x"` no line after the first
equals `---` (the third line is `---x`), so the claim makes
`parse_front_matter` return the empty mapping — but the code accepts the
block, because the regex only requires the closing line to *start* with
`---`. -/
theorem C6_counterexample_closing_line_prefix :
    parse_front_matter "---\na: b\n---x" = [("a", "b")]
    ∧ ((pySplitlines "---\na: b\n---x".data).drop 1).all
        (fun line => decide (line ≠ "---".data)) = true :=
  ⟨by decide, by decide⟩

/-- **C6 (amended)**: `parse_front_matter` recognizes, anchored at the start
of the text, a block opened by a line reading `---` (optional trailing
whitespace) and closed by the next line *starting with* `---`; when the
text does not begin with `---` it returns the empty mapping; each block
line containing a colon is split at the first colon into a trimmed key and
a trimmed, quote-stripped value, colon-less lines are ignored, and the last
occurrence of a duplicate key wins. -/
theorem C6_front_matter_amended :
    (∀ t : String, strStarts t "---" = false → parse_front_matter t = [])
    ∧ (∀ (m : List (String × String)) (k : String) (v : String),
        pyGet (pyInsert m k v) k = some v)
    ∧ parse_front_matter "---\nkey: one\ntitle: \"Quoted\"\nno colon line\nkey: two\n---\nbody"
        = [("key", "two"), ("title", "Quoted")]
    ∧ parse_front_matter "---\na: b\n---extra" = [("a", "b")]
    ∧ parse_front_matter "body only\n---\na: b\n---" = [] :=
  ⟨parse_front_matter_needs_dashes, pyGet_pyInsert_same, by decide, by decide, by decide⟩

/-- Witness for C6: the no-leading-delimiter clause applied to a concrete
text. -/
theorem C6_witness : parse_front_matter "plain document, no delimiters" = [] :=
  C6_front_matter_amended.1 "plain document, no delimiters" (by decide)

-- ── C7 ───────────────────────────────────────────────────────────────────────

/-- **C7 counterexample**: the claim requires a *second-level heading line
equal to the target*; in `"### SYNOPSIS\nhello"` no line equals
`## SYNOPSIS` in any letter case (the only heading is third-level), so the
claim makes `extract_section` return `""` — but the unanchored regex
matches `## SYNOPSIS` inside `### SYNOPSIS` and the code returns
`"hello"`. -/
theorem C7_counterexample_not_line_anchored :
    extract_section "### SYNOPSIS\nhello" "SYNOPSIS" = "hello"
    ∧ (pySplitlines "### SYNOPSIS\nhello".data).all
        (fun line => decide (lowerList line ≠ lowerList "## synopsis".data)) = true :=
  ⟨by decide, by decide⟩

/-- A list is a prefix of itself followed by anything. -/
theorem isPrefixOf_append (p q : List Char) : p.isPrefixOf (p ++ q) = true := by
  induction p with
  | nil => simp [List.isPrefixOf]
  | cons x xs ih => simp [List.isPrefixOf, ih]

/-- A successful case-insensitive literal match decomposes the lowercased
input. -/
theorem caseDrop_lower {p l r : List Char} (h : caseDrop p l = some r) :
    lowerList l = lowerList p ++ lowerList r := by
  induction p generalizing l with
  | nil =>
    simp [caseDrop] at h
    simp [h, lowerList]
  | cons x ps ih =>
    cases l with
    | nil => simp [caseDrop] at h
    | cons c cs =>
      by_cases hc : c.toLower = x.toLower
      · simp [caseDrop, hc] at h
        have := ih h
        simp [lowerList] at this ⊢
        exact ⟨hc, this⟩
      · simp [caseDrop, hc] at h

/-- A heading match at a position implies the lowercased text carries
`## name` as a prefix there. -/
theorem matchHeadingHere_isPrefix {name l c : List Char}
    (h : matchHeadingHere name l = some c) :
    ('#' :: '#' :: ' ' :: lowerList name).isPrefixOf (lowerList l) = true := by
  unfold matchHeadingHere at h
  split at h
  · rename_i rest
    cases hcd : caseDrop name rest with
    | none => rw [hcd] at h; exact absurd h (by simp)
    | some r =>
      rw [hcd] at h
      have hlow := caseDrop_lower hcd
      have h1 : Char.toLower '#' = '#' := by decide
      have h2 : Char.toLower ' ' = ' ' := by decide
      show ('#' :: '#' :: ' ' :: lowerList name).isPrefixOf
        (Char.toLower '#' :: Char.toLower '#' :: Char.toLower ' ' :: lowerList rest) = true
      rw [h1, h2, hlow]
      exact isPrefixOf_append ('#' :: '#' :: ' ' :: lowerList name) (lowerList r)
  · exact absurd h (by simp)

/-- A found heading implies the lowercased text contains `## name`. -/
theorem findHeading_implies_contains {name l c : List Char}
    (h : findHeading name l = some c) :
    listContainsSub ('#' :: '#' :: ' ' :: lowerList name) (lowerList l) = true := by
  induction l with
  | nil => simp [findHeading] at h
  | cons x xs ih =>
    unfold findHeading at h
    cases hm : matchHeadingHere name (x :: xs) with
    | some c2 =>
      have hp := matchHeadingHere_isPrefix hm
      show (('#' :: '#' :: ' ' :: lowerList name).isPrefixOf (lowerList (x :: xs))
        || listContainsSub ('#' :: '#' :: ' ' :: lowerList name) (lowerList xs)) = true
      rw [hp]
      rfl
    | none =>
      rw [hm] at h
      have hrec := ih h
      show (('#' :: '#' :: ' ' :: lowerList name).isPrefixOf (lowerList (x :: xs))
        || listContainsSub ('#' :: '#' :: ' ' :: lowerList name) (lowerList xs)) = true
      rw [hrec]
      simp

/-- **C7 (amended)**: `extract_section` looks for `## ` followed by the target
(case-insensitively) *anywhere* in the text — not only as a whole heading
line — followed by whitespace ending in a newline; it returns the text from
after that newline up to (excluding) the next newline immediately followed
by `## `, or the end of text, trimmed; when the text nowhere contains
`## ` + target (so in particular when the heading is absent) it returns the
empty string. -/
theorem C7_extract_section_amended :
    (∀ (text name : String),
      listContainsSub ('#' :: '#' :: ' ' :: lowerList name.data) (lowerList text.data) = false →
      extract_section text name = "")
    ∧ extract_section "## SYNOPSIS\nhello world\n## SYNTAX\nbye" "SYNOPSIS" = "hello world"
    ∧ extract_section "## Synopsis\nhello" "SYNOPSIS" = "hello"
    ∧ extract_section "## EXAMPLES\nline a\nline b" "EXAMPLES" = "line a\nline b"
    ∧ extract_section "plain text" "SYNOPSIS" = "" := by
  refine ⟨?_, by decide, by decide, by decide, by decide⟩
  intro t name h
  unfold extract_section
  cases hf : findHeading name.data t.data with
  | some c => exact absurd (findHeading_implies_contains hf) (by simp [h])
  | none => rfl

/-- Witness for C7: the absent-pattern clause applied to a concrete text. -/
theorem C7_witness : extract_section "a document without headings" "SYNOPSIS" = "" :=
  C7_extract_section_amended.1 "a document without headings" "SYNOPSIS" (by decide)

-- ── C2 ───────────────────────────────────────────────────────────────────────

/-- The leading capitalized word of a name: its first character together
with the following run of lowercase letters (the `([A-Z][a-z]+)` group). -/
def leadingCapWord (s : String) : String :=
  match s.data with
  | [] => ""
  | c :: rest => String.mk (c :: rest.takeWhile isAsciiLower)

/-- A successful `VERB_RE` split takes the head character and the following
lowercase run as the group. -/
theorem verbAzSplit_group {s : String} {g a : List Char}
    (h : verbAzSplit s = some (g, a)) :
    ∃ c rest, s.data = c :: rest ∧ g = c :: rest.takeWhile isAsciiLower := by
  unfold verbAzSplit at h
  split at h
  · exact absurd h (by simp)
  · rename_i c rest heq
    refine ⟨c, rest, heq, ?_⟩
    by_cases hu : isAsciiUpper c = true
    · rw [if_pos hu] at h
      by_cases he : (rest.takeWhile isAsciiLower).isEmpty = true
      · rw [if_pos he] at h
        exact absurd h (by simp)
      · rw [if_neg he] at h
        split at h
        · have hp := Option.some.inj h
          have hg := congrArg Prod.fst hp
          simp at hg
          exact hg.symm
        · exact absurd h (by simp)
    · rw [if_neg hu] at h
      exact absurd h (by simp)

/-- On names accepted by the verb pattern, the aggregator's verb is the
leading capitalized word. -/
theorem extractVerb_eq_leading {s : String} (h : matchVerbAz s = true) :
    extractVerb s = leadingCapWord s := by
  unfold matchVerbAz at h
  cases hv : verbAzSplit s with
  | none => rw [hv] at h; simp at h
  | some p =>
    obtain ⟨g, a⟩ := p
    obtain ⟨c, rest, hsd, hg⟩ := verbAzSplit_group hv
    unfold extractVerb leadingCapWord
    rw [hv, hsd, hg]

/-- The fields of an accepted document's record, together with the branch
conditions that acceptance implies. -/
theorem parse_cmdlet_doc_some_fields {f : DocFile} {r : CommandDoc}
    (h : parse_cmdlet_doc f = some r) :
    matchModuleIndex f.stem = false
    ∧ r.name = resolveName (parse_front_matter f.text) f.stem
    ∧ matchVerbAz r.name = true
    ∧ r.module = resolveModule (parse_front_matter f.text) f.parent
    ∧ r.module ≠ ""
    ∧ strStarts r.module "Az." = true := by
  simp only [parse_cmdlet_doc] at h
  split at h
  · exact absurd h (by simp)
  · rename_i h1
    split at h
    · exact absurd h (by simp)
    · rename_i h2
      split at h
      · exact absurd h (by simp)
      · rename_i h3
        have hr := Option.some.inj h
        subst hr
        simp at h1 h2 h3
        exact ⟨h1, rfl, h2, rfl, h3.1, h3.2⟩

/-- The skip conditions are exactly the three rejection rules. -/
theorem parse_cmdlet_doc_none_iff (f : DocFile) :
    parse_cmdlet_doc f = none ↔
      (matchModuleIndex f.stem = true
        ∨ matchVerbAz (resolveName (parse_front_matter f.text) f.stem) = false
        ∨ resolveModule (parse_front_matter f.text) f.parent = ""
        ∨ strStarts (resolveModule (parse_front_matter f.text) f.parent) "Az." = false) := by
  simp only [parse_cmdlet_doc]
  split
  · rename_i h1; simp [h1]
  · rename_i h1
    split
    · rename_i h2
      simp at h2
      simp [h2]
    · rename_i h2
      split
      · rename_i h3
        simp at h3
        rcases h3 with h3 | h3
        · simp [h3]
        · simp [h3]
      · rename_i h3
        simp at h1 h2 h3
        simp [h1, h2, h3.1, h3.2]

/-- The concrete document behind the C2 counterexample: its front matter
*has* a `title` field, but an empty one. -/
def cexTitleDoc : DocFile :=
  { stem := "Get-AzFoo", parent := "Az.Foo", text := "---\ntitle:\n---\n" }

/-- **C2 counterexample**: the claim resolves the name to "the `title`
front-matter field when present, otherwise the base name".  Here `title` is
present and empty, the claim's resolved name `""` fails the verb pattern,
so the claim requires `nil` — but the code falls back to the file stem
(`front.get('title') or fname` treats the empty string as absent) and
returns a `CommandDoc`. -/
theorem C2_counterexample_empty_title :
    (parse_cmdlet_doc cexTitleDoc).isSome = true
    ∧ pyGet (parse_front_matter cexTitleDoc.text) "title" = some ""
    ∧ specResolvedName (parse_front_matter cexTitleDoc.text) cexTitleDoc.stem = ""
    ∧ matchVerbAz (specResolvedName (parse_front_matter cexTitleDoc.text) cexTitleDoc.stem) = false :=
  ⟨by decide, by decide, by decide, by decide⟩

/-- **C2 (amended)**: `parse_cmdlet_doc` returns `nil` exactly when the base
name matches `Az.<Word>`, or the resolved name (the `title` field when
present *and non-empty*, otherwise the base name) fails the verb-prefix
pattern, or no valid module (a non-empty `Module Name` field, otherwise an
`Az.`-prefixed parent directory) starting with `Az.` can be determined; on
acceptance it returns a `CommandDoc` carrying that name and module, and the
aggregator extracts the verb as the leading capitalized word. -/
theorem C2_parse_cmdlet_doc_amended :
    ∀ f : DocFile,
      (parse_cmdlet_doc f = none ↔
        (matchModuleIndex f.stem = true
          ∨ matchVerbAz (resolveName (parse_front_matter f.text) f.stem) = false
          ∨ resolveModule (parse_front_matter f.text) f.parent = ""
          ∨ strStarts (resolveModule (parse_front_matter f.text) f.parent) "Az." = false))
      ∧ (∀ r : CommandDoc, parse_cmdlet_doc f = some r →
          r.name = resolveName (parse_front_matter f.text) f.stem
          ∧ r.module = resolveModule (parse_front_matter f.text) f.parent
          ∧ matchVerbAz r.name = true
          ∧ extractVerb r.name = leadingCapWord r.name) :=
  fun f =>
    ⟨parse_cmdlet_doc_none_iff f, fun _ h =>
      have hf := parse_cmdlet_doc_some_fields h
      ⟨hf.2.1, hf.2.2.2.1, hf.2.2.1, extractVerb_eq_leading hf.2.2.1⟩⟩

/-- A well-formed cmdlet document used to witness the acceptance branch. -/
def sampleDoc : DocFile :=
  { stem := "Get-AzVM", parent := "Az.Compute",
    text := "---\ntitle: Get-AzVM\nModule Name: Az.Compute\n---\n## SYNOPSIS\nGets a VM.\n## SYNTAX\n```\nGet-AzVM [-Name]\n```\n## EXAMPLES\n```powershell\n# comment\nGet-AzVM -Name x\n```\n" }

/-- The record `parse_cmdlet_doc` produces for `sampleDoc`. -/
def sampleCmd : CommandDoc :=
  { name := "Get-AzVM", module := "Az.Compute", description := "Gets a VM.",
    syntaxStr := "Get-AzVM [-Name]", examples := ["Get-AzVM -Name x"] }

/-- Witness for C2: the acceptance branch applied to a concrete document. -/
theorem C2_witness :
    sampleCmd.name = resolveName (parse_front_matter sampleDoc.text) sampleDoc.stem
    ∧ sampleCmd.module = resolveModule (parse_front_matter sampleDoc.text) sampleDoc.parent
    ∧ matchVerbAz sampleCmd.name = true
    ∧ extractVerb sampleCmd.name = leadingCapWord sampleCmd.name :=
  (C2_parse_cmdlet_doc_amended sampleDoc).2 sampleCmd (by decide)

-- ── C1 ───────────────────────────────────────────────────────────────────────

/-- Tuple `<` is irreflexive. -/
theorem listLt_irrefl (a : List Nat) : listLt a a = false := by
  induction a with
  | nil => rfl
  | cons x xs ih => simp [listLt, ih]

/-- Tuple `<` is transitive. -/
theorem listLt_trans : ∀ {a b c : List Nat},
    listLt a b = true → listLt b c = true → listLt a c = true
  | [], [], _, h1, _ => by simp [listLt] at h1
  | [], _ :: _, [], _, h2 => by simp [listLt] at h2
  | [], _ :: _, _ :: _, _, _ => rfl
  | _ :: _, [], _, h1, _ => by simp [listLt] at h1
  | _ :: _, _ :: _, [], _, h2 => by simp [listLt] at h2
  | a :: as, b :: bs, c :: cs, h1, h2 => by
    simp only [listLt] at h1 h2 ⊢
    split_ifs at h1 h2 ⊢ <;>
      first
        | rfl
        | omega
        | (exact listLt_trans h1 h2)

/-- Tuple `<` is trichotomous. -/
theorem listLt_total : ∀ (a b : List Nat),
    a = b ∨ listLt a b = true ∨ listLt b a = true
  | [], [] => Or.inl rfl
  | [], _ :: _ => Or.inr (Or.inl rfl)
  | _ :: _, [] => Or.inr (Or.inr rfl)
  | a :: as, b :: bs => by
    rcases Nat.lt_trichotomy a b with h | h | h
    · exact Or.inr (Or.inl (by simp [listLt, h]))
    · subst h
      rcases listLt_total as bs with h2 | h2 | h2
      · exact Or.inl (by rw [h2])
      · exact Or.inr (Or.inl (by simp [listLt, h2]))
      · exact Or.inr (Or.inr (by simp [listLt, h2]))
    · exact Or.inr (Or.inr (by simp [listLt, h]))

/-- The running maximum is the seed or one of the scanned elements. -/
theorem pyMaxFold_mem {α : Type} (key : α → List Nat) (x : α) (xs : List α) :
    pyMaxFold key x xs = x ∨ pyMaxFold key x xs ∈ xs := by
  induction xs generalizing x with
  | nil => exact Or.inl rfl
  | cons y ys ih =>
    have step : pyMaxFold key x (y :: ys) =
        pyMaxFold key (if listLt (key x) (key y) then y else x) ys := rfl
    rw [step]
    cases hxy : listLt (key x) (key y) with
    | true =>
      rw [if_pos rfl]
      rcases ih y with h | h
      · rw [h]; exact Or.inr (List.mem_cons_self y ys)
      · exact Or.inr (List.mem_cons_of_mem y h)
    | false =>
      rw [if_neg (by simp)]
      rcases ih x with h | h
      · exact Or.inl h
      · exact Or.inr (List.mem_cons_of_mem y h)

/-- No seed or scanned element has a strictly greater key than the running
maximum. -/
theorem pyMaxFold_not_lt {α : Type} (key : α → List Nat) (x : α) (xs : List α) :
    listLt (key (pyMaxFold key x xs)) (key x) = false
    ∧ ∀ y ∈ xs, listLt (key (pyMaxFold key x xs)) (key y) = false := by
  induction xs generalizing x with
  | nil => exact ⟨listLt_irrefl _, by simp⟩
  | cons y ys ih =>
    have step : pyMaxFold key x (y :: ys) =
        pyMaxFold key (if listLt (key x) (key y) then y else x) ys := rfl
    cases hxy : listLt (key x) (key y) with
    | true =>
      rw [step, if_pos hxy]
      obtain ⟨ih1, ih2⟩ := ih y
      refine ⟨?_, ?_⟩
      · cases hc : listLt (key (pyMaxFold key y ys)) (key x) with
        | false => rfl
        | true => exact absurd (listLt_trans hc hxy) (by simp [ih1])
      · intro z hz
        rcases List.mem_cons.mp hz with hz1 | hz2
        · rw [hz1]; exact ih1
        · exact ih2 z hz2
    | false =>
      rw [step, if_neg (by simp [hxy])]
      obtain ⟨ih1, ih2⟩ := ih x
      refine ⟨ih1, ?_⟩
      intro z hz
      rcases List.mem_cons.mp hz with hz1 | hz2
      · subst hz1
        rcases listLt_total (key x) (key z) with he | hlt | hgt
        · rw [← he]; exact ih1
        · rw [hlt] at hxy; exact absurd hxy (by simp)
        · cases hc : listLt (key (pyMaxFold key x ys)) (key z) with
          | false => rfl
          | true => exact absurd (listLt_trans hc hgt) (by simp [ih1])
      · exact ih2 z hz2

/-- `pyMaxBy` fails exactly on the empty candidate list. -/
theorem pyMaxBy_none_iff {α : Type} (key : α → List Nat) (l : List α) :
    pyMaxBy key l = none ↔ l = [] := by
  cases l <;> simp [pyMaxBy]

/-- `pyMaxBy` returns a member whose key no candidate strictly exceeds. -/
theorem pyMaxBy_spec {α : Type} (key : α → List Nat) {l : List α} {m : α}
    (h : pyMaxBy key l = some m) :
    m ∈ l ∧ ∀ y ∈ l, listLt (key m) (key y) = false := by
  cases l with
  | nil => simp [pyMaxBy] at h
  | cons x xs =>
    simp only [pyMaxBy, Option.some.injEq] at h
    subst h
    constructor
    · rcases pyMaxFold_mem key x xs with h | h
      · rw [h]; exact List.mem_cons_self _ _
      · exact List.mem_cons_of_mem _ h
    · intro y hy
      obtain ⟨h1, h2⟩ := pyMaxFold_not_lt key x xs
      rcases List.mem_cons.mp hy with hy1 | hy2
      · rw [hy1]; exact h1
      · exact h2 y hy2

/-- The candidate list the resolver effectively ranks: the first-level
candidates, or the second-level ones when the first level is empty. -/
def effCandidates (root : FSNode) : List FSNode :=
  if (lvl1Candidates root).isEmpty then lvl2Candidates root else lvl1Candidates root

/-- The resolver is `pyMaxBy` over the effective candidates. -/
theorem find_latest_eq_pyMaxBy (root : FSNode) :
    find_latest_azps_dir root = pyMaxBy (fun d => verKey (nodeName d)) (effCandidates root) := by
  unfold find_latest_azps_dir effCandidates
  by_cases h : (lvl1Candidates root).isEmpty
  · have h0 : lvl1Candidates root = [] := by
      cases hl : lvl1Candidates root
      · rfl
      · rw [hl] at h; simp [List.isEmpty] at h
    simp [h, h0]
  · simp [h]

/-- **C1**: `find_latest_azps_dir` ranks the first-level `azps-*` child
directories, falling back to the children-of-children scan only when the
first level has none; it returns a candidate whose parsed integer tuple no
candidate strictly exceeds (so `azps-1.10.0` beats `azps-1.2.3` and
`azps-1.9.9`); and it fails exactly when neither level has a candidate. -/
theorem C1_find_latest_azps_dir_selects_max :
    (∀ root : FSNode,
      (find_latest_azps_dir root = none ↔ lvl1Candidates root = [] ∧ lvl2Candidates root = []))
    ∧ (∀ root : FSNode, lvl1Candidates root ≠ [] → effCandidates root = lvl1Candidates root)
    ∧ (∀ root : FSNode, lvl1Candidates root = [] → effCandidates root = lvl2Candidates root)
    ∧ (∀ (root d : FSNode), find_latest_azps_dir root = some d →
        d ∈ effCandidates root
        ∧ ∀ d' ∈ effCandidates root, listLt (verKey (nodeName d)) (verKey (nodeName d')) = false)
    ∧ find_latest_azps_dir
        (.dir "root" (forestOf [.dir "azps-1.2.3" .nil, .dir "azps-1.10.0" .nil, .dir "azps-1.9.9" .nil]))
        = some (.dir "azps-1.10.0" .nil) := by
  refine ⟨?_, ?_, ?_, ?_, rfl⟩
  · intro root
    rw [find_latest_eq_pyMaxBy, pyMaxBy_none_iff]
    unfold effCandidates
    by_cases h : (lvl1Candidates root).isEmpty
    · have h0 : lvl1Candidates root = [] := by
        cases hl : lvl1Candidates root
        · rfl
        · rw [hl] at h; simp [List.isEmpty] at h
      simp [h, h0]
    · have h0 : lvl1Candidates root ≠ [] := by
        intro he; rw [he] at h; exact h rfl
      simp [h, h0]
  · intro root h
    have h0 : (lvl1Candidates root).isEmpty = false := by
      cases hl : lvl1Candidates root
      · exact absurd hl h
      · rfl
    unfold effCandidates
    simp [h0]
  · intro root h
    unfold effCandidates
    simp [h]
  · intro root d h
    rw [find_latest_eq_pyMaxBy] at h
    exact pyMaxBy_spec _ h

/-- The concrete root used to witness C1. -/
def c1SampleRoot : FSNode :=
  .dir "root" (forestOf [.dir "azps-1.2.3" .nil, .dir "azps-1.10.0" .nil, .dir "azps-1.9.9" .nil])

/-- Witness for C1: the maximality clause applied to the concrete root. -/
theorem C1_witness :
    ((.dir "azps-1.10.0" .nil : FSNode) ∈ effCandidates c1SampleRoot
      ∧ ∀ d' ∈ effCandidates c1SampleRoot,
          listLt (verKey (nodeName (.dir "azps-1.10.0" .nil))) (verKey (nodeName d')) = false)
    ∧ effCandidates c1SampleRoot = lvl1Candidates c1SampleRoot :=
  ⟨C1_find_latest_azps_dir_selects_max.2.2.2.1 c1SampleRoot (.dir "azps-1.10.0" .nil) rfl,
   C1_find_latest_azps_dir_selects_max.2.1 c1SampleRoot
     (fun h => List.cons_ne_nil _ _
       ((rfl :
          lvl1Candidates c1SampleRoot =
            [FSNode.dir "azps-1.2.3" FSForest.nil, FSNode.dir "azps-1.10.0" FSForest.nil,
             FSNode.dir "azps-1.9.9" FSForest.nil]) ▸ h))⟩

-- ── C9 ───────────────────────────────────────────────────────────────────────

/-- **C9**: the run fails with the usage error exactly when the single
positional argument is missing (`len(sys.argv) < 2`), and with the
not-found error exactly when the argument is present but no `azps-*`
directory exists at either scan level; output objects exist only in the
`ok` result, so nothing is written on either fatal error. -/
theorem C9_main_fatal_errors :
    (∀ (argv : List String) (root : FSNode),
      main argv root = .error .usage ↔ argv.length < 2)
    ∧ (∀ (argv : List String) (root : FSNode),
      main argv root = .error .notFound ↔ 2 ≤ argv.length ∧ find_latest_azps_dir root = none)
    ∧ (∀ (argv : List String) (root : FSNode) (o : Outputs),
      main argv root = .ok o → 2 ≤ argv.length ∧ find_latest_azps_dir root ≠ none)
    ∧ main ["parse_docs.py"] (.dir "root" .nil) = .error .usage
    ∧ main ["parse_docs.py", "/docs"] (.dir "root" (forestOf [.file "x" ""])) = .error .notFound := by
  refine ⟨?_, ?_, ?_, rfl, rfl⟩
  · intro argv root
    unfold main
    by_cases h : argv.length < 2
    · simp [h]
    · rw [if_neg h]
      cases hf : find_latest_azps_dir root
      all_goals simp [h]
  · intro argv root
    unfold main
    by_cases h : argv.length < 2
    · simp [h]
    · rw [if_neg h]
      cases hf : find_latest_azps_dir root <;> simp [hf] <;> omega
  · intro argv root o h
    unfold main at h
    by_cases ha : argv.length < 2
    · rw [if_pos ha] at h; exact absurd h (by simp)
    · rw [if_neg ha] at h
      refine ⟨by omega, ?_⟩
      cases hf : find_latest_azps_dir root
      · rw [hf] at h; exact absurd h (by simp)
      · simp [hf]

/-- A root holding one versioned directory, used to witness C9. -/
def c9SampleRoot : FSNode :=
  .dir "root" (forestOf [.dir "azps-2.1.0" .nil])

/-- Witness for C9: a successful run implies the argument was present and a
versioned directory was found. -/
theorem C9_witness :
    2 ≤ (["parse_docs.py", "/docs"] : List String).length
    ∧ find_latest_azps_dir c9SampleRoot ≠ none :=
  C9_main_fatal_errors.2.2.1 ["parse_docs.py", "/docs"] c9SampleRoot
    (runPipeline (.dir "azps-2.1.0" .nil)) rfl

-- ── C4 ───────────────────────────────────────────────────────────────────────

/-- Entries appended by one module's file loop carry the parsed name (which
passed the verb pattern), the module directory name, and its category. -/
theorem processFile_entries_mem {mn cat : String} (files : List (String × String))
    (st : ModState) {e : ManifestEntry}
    (he : e ∈ (files.foldl (processFile mn cat) st).entries) :
    e ∈ st.entries ∨ (matchVerbAz e.n = true ∧ e.m = mn ∧ e.c = cat) := by
  induction files generalizing st with
  | nil => exact Or.inl he
  | cons f fs ih =>
    have hstep : (f :: fs).foldl (processFile mn cat) st =
        fs.foldl (processFile mn cat) (processFile mn cat st f) := rfl
    rw [hstep] at he
    rcases ih (processFile mn cat st f) he with h | h
    · cases hp : parse_cmdlet_doc ⟨pathStem f.1, mn, f.2⟩ with
      | none =>
        simp only [processFile, hp] at h
        exact Or.inl h
      | some r =>
        simp only [processFile, hp] at h
        rcases List.mem_append.mp h with h2 | h2
        · exact Or.inl h2
        · have h3 := List.mem_singleton.mp h2
          right
          rw [h3]
          exact ⟨(parse_cmdlet_doc_some_fields hp).2.2.1, rfl, rfl⟩
    · exact Or.inr h

/-- The per-entry manifest invariant of C4. -/
def entryInv (e : ManifestEntry) : Prop :=
  matchVerbAz e.n = true ∧ strStarts e.m "Az." = true

/-- The per-bundle invariant of C4. -/
def bundleInv (mvm : List (String × String)) (p : String × ModuleBundle) : Prop :=
  p.2.cmdlets ≠ [] ∧ p.2.module = p.1
  ∧ p.2.version = (pyGet mvm p.2.module).getD "0.0.0"

/-- The outer module loop preserves both invariants. -/
theorem processModuleDir_inv (mvm : List (String × String)) (dirs : List FSNode)
    (st : AggState)
    (hman : ∀ e ∈ st.manifest, entryInv e)
    (hmod : ∀ p ∈ st.modulesData, bundleInv mvm p) :
    (∀ e ∈ (dirs.foldl (processModuleDir mvm) st).manifest, entryInv e)
    ∧ (∀ p ∈ (dirs.foldl (processModuleDir mvm) st).modulesData, bundleInv mvm p) := by
  induction dirs generalizing st with
  | nil => exact ⟨hman, hmod⟩
  | cons d ds ih =>
    have hstep : (d :: ds).foldl (processModuleDir mvm) st =
        ds.foldl (processModuleDir mvm) (processModuleDir mvm st d) := rfl
    rw [hstep]
    apply ih
    · intro e he
      cases hd : nodeIsDir d with
      | false =>
        simp only [processModuleDir, hd, Bool.not_false, if_true] at he
        exact hman e he
      | true =>
        cases hs : strStarts (nodeName d) "Az." with
        | false =>
          simp only [processModuleDir, hd, hs, Bool.not_true, Bool.not_false,
            if_false, if_true] at he
          exact hman e he
        | true =>
          simp only [processModuleDir, hd, hs, Bool.not_true, if_false] at he
          rcases processFile_entries_mem _ _ he with h | h
          · exact hman e h
          · exact ⟨h.1, by rw [h.2.1]; exact hs⟩
    · intro p hp
      cases hd : nodeIsDir d with
      | false =>
        simp only [processModuleDir, hd, Bool.not_false, if_true] at hp
        exact hmod p hp
      | true =>
        cases hs : strStarts (nodeName d) "Az." with
        | false =>
          simp only [processModuleDir, hd, hs, Bool.not_true, Bool.not_false,
            if_false, if_true] at hp
          exact hmod p hp
        | true =>
          simp only [processModuleDir, hd, hs, Bool.not_true, Bool.not_false,
            Bool.false_eq_true, Bool.true_eq_false, if_false, if_true, ite_false, ite_true] at hp
          generalize hms : (sortByKey (fun a b => charListLe a.1.data b.1.data)
            (mdChildren d)).foldl (processFile (nodeName d) (get_category (nodeName d)))
            { entries := st.manifest, descs := st.descriptions, cmdlets := [] } = ms at hp
          cases hc : ms.cmdlets.isEmpty with
          | true =>
            simp only [hc, Bool.false_eq_true, Bool.true_eq_false, if_false, if_true,
              ite_false, ite_true] at hp
            exact hmod p hp
          | false =>
            simp only [hc, Bool.false_eq_true, Bool.true_eq_false, if_false, if_true,
              ite_false, ite_true] at hp
            rcases pyInsert_mem hp with h | h
            · exact hmod p h
            · rw [h]
              refine ⟨?_, rfl, rfl⟩
              intro hnil
              have hnil2 : ms.cmdlets = [] := hnil
              rw [hnil2] at hc
              exact absurd hc (by simp)

/-- **C4**: in every run of the pipeline, every manifest entry's name matches
the verb pattern `^[A-Z][a-z]+-Az` and its module starts with `Az.`; a
per-module file is emitted only with a non-empty cmdlet mapping, records
its own module name, and takes its version from the front-matter map with
fallback `"0.0.0"`; the top-level version comes from the directory name
with the same fallback. -/
theorem C4_pipeline_invariants :
    ∀ azps : FSNode,
      (∀ e ∈ (runPipeline azps).manifest.d,
        matchVerbAz e.n = true ∧ strStarts e.m "Az." = true)
      ∧ (∀ p ∈ (runPipeline azps).moduleFiles,
          p.2.cmdlets ≠ [] ∧ p.2.module = p.1
          ∧ p.2.version = (pyGet (moduleVersionMapOf azps) p.2.module).getD "0.0.0")
      ∧ (runPipeline azps).manifest.v = (extractAzpsVersion (nodeName azps)).getD "0.0.0" := by
  intro azps
  have h := processModuleDir_inv (moduleVersionMapOf azps)
    (sortByKey (fun a b => charListLe (nodeName a).data (nodeName b).data) (nodeChildren azps))
    { manifest := [], descriptions := [], modulesData := [] }
    (by simp) (by simp)
  exact ⟨fun e he => h.1 e he, fun p hp => h.2 p hp, rfl⟩

/-- The versioned directory of the witness run. -/
def sampleAzps : FSNode :=
  .dir "azps-2.1.0" (forestOf [.dir "Az.Foo" (forestOf [.file "Get-AzFoo.md"
    "---\nModule Name: Az.Foo\nModule Version: 9.9.9\n---\n## SYNOPSIS\nGets Foo.\n## SYNTAX\n```\nGet-AzFoo\n```\n## EXAMPLES\n```powershell\nGet-AzFoo\n```\n"])])

/-- Witness for C4: the manifest invariant applied to the entry the witness
run emits. -/
theorem C4_witness :
    matchVerbAz (ManifestEntry.mk "Get-AzFoo" "Get" "Az.Foo" "Other" true).n = true
    ∧ strStarts (ManifestEntry.mk "Get-AzFoo" "Get" "Az.Foo" "Other" true).m "Az." = true :=
  (C4_pipeline_invariants sampleAzps).1 (ManifestEntry.mk "Get-AzFoo" "Get" "Az.Foo" "Other" true)
    (by decide)

-- ── C8 ───────────────────────────────────────────────────────────────────────

/-- A module directory with two documents that resolve to the *same* command
name `Get-AzFoo` (the second via its `title` field); the earlier one has a
non-empty description, the later one has none. -/
def dupModDir : FSNode :=
  .dir "Az.Foo" (forestOf [
    .file "Get-AzFoo.md" "---\nModule Name: Az.Foo\n---\n## SYNOPSIS\nFirst desc\n",
    .file "Zzz.md" "---\ntitle: Get-AzFoo\nModule Name: Az.Foo\n---\nplain text"])

/-- Like `dupModDir`, but the later document carries its own non-empty
description `Second desc`. -/
def dupModDir2 : FSNode :=
  .dir "Az.Foo" (forestOf [
    .file "Get-AzFoo.md" "---\nModule Name: Az.Foo\n---\n## SYNOPSIS\nFirst desc\n",
    .file "Zzz.md" "---\ntitle: Get-AzFoo\nModule Name: Az.Foo\n---\n## SYNOPSIS\nSecond desc\n"])

/-- **C8 counterexample**: both documents of `dupModDir` are accepted and
yield the name `Get-AzFoo`, yet after processing, the description index
still holds the *earlier* document's `First desc` — the later document
(whose description is empty) does not overwrite, contradicting the claim
that the later one always overwrites the earlier one's description. -/
theorem C8_counterexample_empty_later_description :
    (parse_cmdlet_doc ⟨"Get-AzFoo", "Az.Foo",
        "---\nModule Name: Az.Foo\n---\n## SYNOPSIS\nFirst desc\n"⟩).map CommandDoc.name
      = some "Get-AzFoo"
    ∧ (parse_cmdlet_doc ⟨"Zzz", "Az.Foo",
        "---\ntitle: Get-AzFoo\nModule Name: Az.Foo\n---\nplain text"⟩).map CommandDoc.name
      = some "Get-AzFoo"
    ∧ (parse_cmdlet_doc ⟨"Zzz", "Az.Foo",
        "---\ntitle: Get-AzFoo\nModule Name: Az.Foo\n---\nplain text"⟩).map CommandDoc.description
      = some ""
    ∧ (processModuleDir [] ⟨[], [], []⟩ dupModDir).descriptions = [("Get-AzFoo", "First desc")] :=
  ⟨by decide, by decide, by decide, by decide⟩

/-- **C8 (amended)**: description-index keys are command names; when two
accepted documents yield the same name, the later one overwrites the
earlier one's description *provided its own description is non-empty*;
a later empty description leaves the earlier entry in place. -/
theorem C8_description_overwrite_amended :
    (∀ (mn cat : String) (st : ModState) (f1 f2 : String × String) (r1 r2 : CommandDoc),
      parse_cmdlet_doc ⟨pathStem f1.1, mn, f1.2⟩ = some r1 →
      parse_cmdlet_doc ⟨pathStem f2.1, mn, f2.2⟩ = some r2 →
      r2.name = r1.name →
      pyGet (([f1, f2].foldl (processFile mn cat) st).descs) r1.name =
        (if r2.description = "" then
          (if r1.description = "" then pyGet st.descs r1.name else some r1.description)
        else some r2.description))
    ∧ (processModuleDir [] ⟨[], [], []⟩ dupModDir2).descriptions = [("Get-AzFoo", "Second desc")] := by
  refine ⟨?_, by decide⟩
  intro mn cat st f1 f2 r1 r2 h1 h2 hn
  have e1 : [f1, f2].foldl (processFile mn cat) st =
      processFile mn cat (processFile mn cat st f1) f2 := rfl
  rw [e1]
  simp only [processFile, h1, h2]
  by_cases hd2 : r2.description = ""
  · rw [if_pos hd2, if_pos hd2]
    by_cases hd1 : r1.description = ""
    · rw [if_pos hd1, if_pos hd1]
    · rw [if_neg hd1, if_neg hd1]
      exact pyGet_pyInsert_same _ _ _
  · rw [if_neg hd2, if_neg hd2, hn]
    exact pyGet_pyInsert_same _ _ _

/-- Witness for C8: the amended overwrite rule applied to the two concrete
documents of `dupModDir` (later description empty, earlier kept). -/
theorem C8_witness :
    pyGet (([(("Get-AzFoo.md" : String),
          ("---\nModule Name: Az.Foo\n---\n## SYNOPSIS\nFirst desc\n" : String)),
        (("Zzz.md" : String),
          ("---\ntitle: Get-AzFoo\nModule Name: Az.Foo\n---\nplain text" : String))].foldl
        (processFile "Az.Foo" "Other") (⟨[], [], []⟩ : ModState)).descs) "Get-AzFoo" =
      (if ("" : String) = "" then
        (if ("First desc" : String) = "" then pyGet (⟨[], [], []⟩ : ModState).descs "Get-AzFoo"
         else some "First desc")
      else some "") :=
  C8_description_overwrite_amended.1 "Az.Foo" "Other" ⟨[], [], []⟩
    ("Get-AzFoo.md", "---\nModule Name: Az.Foo\n---\n## SYNOPSIS\nFirst desc\n")
    ("Zzz.md", "---\ntitle: Get-AzFoo\nModule Name: Az.Foo\n---\nplain text")
    ⟨"Get-AzFoo", "Az.Foo", "First desc", "", []⟩
    ⟨"Get-AzFoo", "Az.Foo", "", "", []⟩
    (by decide) (by decide) rfl

-- ── C10 ──────────────────────────────────────────────────────────────────────

/-- **C10 counterexample**: in `dupModDir` two accepted documents share the
name `Get-AzFoo`; the manifest indeed gets two entries, but the
description index keeps the value of the *earlier* document (`First
desc`), not "the one from the document processed later" (whose
description is empty), falsifying the claim's parenthetical for the
description index. -/
theorem C10_counterexample_description_keeps_earlier :
    ((processModuleDir [] ⟨[], [], []⟩ dupModDir).manifest).length = 2
    ∧ (processModuleDir [] ⟨[], [], []⟩ dupModDir).descriptions = [("Get-AzFoo", "First desc")]
    ∧ (parse_cmdlet_doc ⟨"Zzz", "Az.Foo",
        "---\ntitle: Get-AzFoo\nModule Name: Az.Foo\n---\nplain text"⟩).map CommandDoc.description
      = some "" :=
  ⟨by decide, by decide, by decide⟩

/-- **C10 (amended)**: the manifest gets exactly one entry per accepted
document (duplicates appear as separate entries); the per-module cmdlet
mapping keeps exactly one value per name — the later document's; the
description index also keeps at most one value per name, but the later
document's only when its description is non-empty. -/
theorem C10_duplicate_names_amended :
    (∀ (mn cat : String) (files : List (String × String)) (st : ModState),
      ((files.foldl (processFile mn cat) st).entries).length =
        st.entries.length +
          files.countP (fun md => (parse_cmdlet_doc ⟨pathStem md.1, mn, md.2⟩).isSome))
    ∧ (∀ (m : List (String × ModuleCmdlet)) (k : String) (v1 v2 : ModuleCmdlet),
        pyGet (pyInsert (pyInsert m k v1) k v2) k = some v2)
    ∧ (∀ (mn cat : String) (st : ModState) (f1 f2 : String × String) (r1 r2 : CommandDoc),
        parse_cmdlet_doc ⟨pathStem f1.1, mn, f1.2⟩ = some r1 →
        parse_cmdlet_doc ⟨pathStem f2.1, mn, f2.2⟩ = some r2 →
        r2.name = r1.name →
        pyGet (([f1, f2].foldl (processFile mn cat) st).cmdlets) r1.name =
          some ⟨r2.syntaxStr, r2.examples⟩) := by
  refine ⟨?_, ?_, ?_⟩
  · intro mn cat files
    induction files with
    | nil => intro st; simp
    | cons f fs ih =>
      intro st
      have hstep : (f :: fs).foldl (processFile mn cat) st =
          fs.foldl (processFile mn cat) (processFile mn cat st f) := rfl
      rw [hstep, ih, List.countP_cons]
      cases hp : parse_cmdlet_doc ⟨pathStem f.1, mn, f.2⟩ with
      | none =>
        simp only [processFile, hp, Option.isSome_none]
        simp
      | some r =>
        simp only [processFile, hp, Option.isSome_some]
        simp [List.length_append]
        omega
  · intro m k v1 v2
    exact pyGet_pyInsert_same _ _ _
  · intro mn cat st f1 f2 r1 r2 h1 h2 hn
    have e1 : [f1, f2].foldl (processFile mn cat) st =
        processFile mn cat (processFile mn cat st f1) f2 := rfl
    rw [e1]
    simp only [processFile, h1, h2, hn]
    exact pyGet_pyInsert_same _ _ _

/-- Witness for C10: the manifest-count clause applied to `dupModDir`'s two
files, and the cmdlet later-wins clause at the same inputs. -/
theorem C10_witness :
    (([(("Get-AzFoo.md" : String),
          ("---\nModule Name: Az.Foo\n---\n## SYNOPSIS\nFirst desc\n" : String)),
        (("Zzz.md" : String),
          ("---\ntitle: Get-AzFoo\nModule Name: Az.Foo\n---\nplain text" : String))].foldl
        (processFile "Az.Foo" "Other") (⟨[], [], []⟩ : ModState)).entries).length =
      (⟨[], [], []⟩ : ModState).entries.length +
        [(("Get-AzFoo.md" : String),
          ("---\nModule Name: Az.Foo\n---\n## SYNOPSIS\nFirst desc\n" : String)),
         (("Zzz.md" : String),
          ("---\ntitle: Get-AzFoo\nModule Name: Az.Foo\n---\nplain text" : String))].countP
          (fun md => (parse_cmdlet_doc ⟨pathStem md.1, "Az.Foo", md.2⟩).isSome) :=
  C10_duplicate_names_amended.1 "Az.Foo" "Other"
    [("Get-AzFoo.md", "---\nModule Name: Az.Foo\n---\n## SYNOPSIS\nFirst desc\n"),
     ("Zzz.md", "---\ntitle: Get-AzFoo\nModule Name: Az.Foo\n---\nplain text")]
    ⟨[], [], []⟩

end AzIndex
